import Mathlib

/-!
# llgo declaration lowering (`decl.go`)

A shallow embedding of `VisitFuncProtoDecl`, `VisitFuncDecl`, `VisitValueSpec`,
`VisitGenDecl` and `VisitDecl` of `src/decl.go`.

* The LLVM module, the builder, the visitor fields and the `ast.Object`s the
  identifiers point to are gathered in one explicit `State`.
* A Go pointer to an `ast.Object` is an index into `State.objs`.
* The collaborators that live outside `decl.go` (`VisitExpr`, `VisitBlockStmt`,
  `VisitFuncType`, `unicode.IsUpper`) are fields of `Env`; they are arbitrary
  state transformers.
* A call has three possible outcomes: normal return, a Go panic (deferred
  calls run, the state survives), or a fault inside the LLVM C library (a null
  handle is dereferenced, the process dies, nothing runs afterwards).
-/

namespace Llgo

/-! ## LLVM types and values -/

/-- The `llvm.TypeKind` values the visitor distinguishes. -/
inductive TypeKind
  | VoidTypeKind
  | IntegerTypeKind
  | FloatTypeKind
  | PointerTypeKind
  | ArrayTypeKind
  | FunctionTypeKind
  | StructTypeKind
  deriving DecidableEq, Repr

/-- An `llvm.Type`. -/
inductive LType
  | void
  | int (bits : Nat)
  | float (bits : Nat)
  | pointer (elem : LType)
  | array (elem : LType) (len : Nat)
  | function (ret : LType) (params : List LType)
  | struct (id : Nat)
  deriving Repr

/-- The Go method `Type.TypeKind()`. -/
def LType.TypeKind : LType → TypeKind
  | .void => .VoidTypeKind
  | .int _ => .IntegerTypeKind
  | .float _ => .FloatTypeKind
  | .pointer _ => .PointerTypeKind
  | .array _ _ => .ArrayTypeKind
  | .function _ _ => .FunctionTypeKind
  | .struct _ => .StructTypeKind

/-- The Go method `Type.ReturnType()`. On a function type it is the return
type. `decl.go` line 68 also applies it to the pointer-to-function type of a
function value and relies on getting the pointee back ("fn.Type() is a
pointer-to-function"), so a pointer yields its element type. Any other type
is outside what the C API defines. -/
def LType.ReturnType : LType → Option LType
  | .function ret _ => some ret
  | .pointer elem => some elem
  | _ => none

/-- The Go function `llvm.Int32Type()`. -/
def Int32Type : LType := .int 32

/-- An `llvm.Value` handle. `constInt` and `constFP` are the LLVM classes
`ConstantInt` and `ConstantFP`; `global id ty` is the handle of the `id`-th
global variable of the module (`ty` is the type of the stored value),
`function id ty` the handle of the `id`-th function (`ty` is its function
type); `other` is any remaining value (instruction results, aggregates). -/
inductive Value
  | null
  | constInt (ty : LType) (n : Nat)
  | constFP (ty : LType) (bits : Nat)
  | global (id : Nat) (ty : LType)
  | function (id : Nat) (ty : LType)
  | other (id : Nat) (ty : LType)
  deriving Repr

/-- The Go method `Value.IsNil()`. -/
def Value.IsNil : Value → Bool
  | .null => true
  | _ => false

/-- The Go method `Value.IsAConstantInt()`: the value itself when it is a
`ConstantInt`, the null handle otherwise (also on a null handle). -/
def Value.IsAConstantInt : Value → Value
  | .constInt ty n => .constInt ty n
  | _ => .null

/-- The Go method `Value.IsAConstantFP()`: the value itself when it is a
`ConstantFP`, the null handle otherwise. -/
def Value.IsAConstantFP : Value → Value
  | .constFP ty b => .constFP ty b
  | _ => .null

/-- The Go method `Value.IsAGlobalVariable()`. -/
def Value.IsAGlobalVariable : Value → Value
  | .global id ty => .global id ty
  | _ => .null

/-- The Go method `Value.Type()`. `LLVMTypeOf` dereferences the handle, so
the null handle has no type: the call faults (`none`). Globals and functions
are addresses. -/
def Value.Type : Value → Option LType
  | .null => none
  | .constInt ty _ => some ty
  | .constFP ty _ => some ty
  | .global _ ty => some (.pointer ty)
  | .function _ ty => some (.pointer ty)
  | .other _ ty => some ty

/-- The Go function `llvm.ConstInt(t, n, signextend)`: the constant keeps the
low `bits` bits of the 64-bit argument. -/
def ConstInt (t : LType) (n : Nat) : Value :=
  match t with
  | .int bits => .constInt t (n % 2 ^ bits)
  | _ => .constInt t n

/-- The Go conversion `uint64(i)` of an `int`. -/
def uint64 (i : Int) : Nat := (i % 2 ^ 64).toNat

/-! ## The LLVM module -/

/-- The `llvm.Linkage` values used by `decl.go`. -/
inductive Linkage
  | ExternalLinkage
  | InternalLinkage
  deriving DecidableEq, Repr

/-- The `llvm.CallConv` values used by `decl.go`. -/
inductive CallConv
  | CCallConv
  | FastCallConv
  deriving DecidableEq, Repr

/-- A global variable of the module. `name` is the name the symbol has in
the module. `initializer` is the null handle while no initializer is set. `indirect` is the addressing-mode tag written by
`setindirect`. -/
structure Global where
  name : String
  ty : LType
  initializer : Value
  isconstant : Bool
  linkage : Linkage
  indirect : Bool
  deriving Repr

/-- The `llvm.Opcode` of an instruction, as far as `decl.go` looks. -/
inductive Opcode
  | Ret
  | Other (n : Nat)
  deriving DecidableEq, Repr

/-- An instruction of a basic block. -/
inductive Instr
  | retVoid
  | ret (v : Value)
  | other (opcode : Nat)
  deriving Repr

/-- The Go method `Value.Opcode()` of an instruction. -/
def Instr.Opcode : Instr → Opcode
  | .retVoid => .Ret
  | .ret _ => .Ret
  | .other n => .Other n

/-- A basic block: its name and its instructions in order. -/
structure BasicBlock where
  name : String
  instrs : List Instr
  deriving Repr

/-- A function of the module. -/
structure Function where
  name : String
  ty : LType
  linkage : Linkage
  callconv : CallConv
  blocks : List BasicBlock
  deriving Repr

/-- The `llvm.Module`. -/
structure Module where
  globals : List Global
  funcs : List Function
  deriving Repr

/-- Apply `f` to the `n`-th element of a list, if there is one. -/
def updateAt {α : Type} : List α → Nat → (α → α) → List α
  | [], _, _ => []
  | x :: xs, 0, f => f x :: xs
  | x :: xs, n + 1, f => x :: updateAt xs n f

/-! ## The syntax tree -/

/-- An `ast.Expr`; the visitor never looks inside. -/
structure Expr where
  id : Nat
  deriving DecidableEq, Repr

/-- An `ast.BlockStmt`; the visitor never looks inside. -/
structure BlockStmt where
  id : Nat
  deriving DecidableEq, Repr

/-- An `ast.FuncType`; the visitor never looks inside. -/
structure FuncType where
  id : Nat
  deriving DecidableEq, Repr

/-- An `ast.Ident`: the name and the pointer to its `ast.Object`. -/
structure Ident where
  name : String
  obj : Nat
  deriving DecidableEq, Repr

/-- An `ast.ValueSpec`: the names and the initializer expressions; an
entry of `values` may be a nil expression. -/
structure ValueSpec where
  names : List Ident
  values : List (Option Expr)
  deriving DecidableEq, Repr

/-- The `ast.ObjKind` of an object. -/
inductive ObjKind
  | Bad
  | Pkg
  | Con
  | Typ
  | Var
  | Fun
  deriving DecidableEq, Repr

/-- The dynamic content of the `Data interface{}` field of an `ast.Object`:
nil, an `int` (the iota ordinal left by the parser), an `llvm.Value`, or a
value of any other type. -/
inductive Data
  | nil
  | int (n : Int)
  | value (v : Value)
  | other (tag : Nat)
  deriving Repr

/-- An `ast.Object`. `decl` is `some vs` when the `Decl` field holds a
non-nil `*ast.ValueSpec`, `none` otherwise. -/
structure Object where
  kind : ObjKind
  data : Data
  decl : Option ValueSpec
  deriving Repr

/-- An `ast.FuncDecl`. -/
structure FuncDecl where
  name : Ident
  type : FuncType
  body : Option BlockStmt
  deriving Repr

/-- The `token.Token` of an `ast.GenDecl`. -/
inductive Token
  | IMPORT
  | TYPE
  | CONST
  | VAR
  | OTHER
  deriving DecidableEq, Repr

/-- An `ast.Spec`: a value spec or a spec of another kind. -/
inductive Spec
  | valueSpec (vs : ValueSpec)
  | otherSpec
  deriving Repr

/-- An `ast.GenDecl`. -/
structure GenDecl where
  tok : Token
  specs : List Spec
  deriving Repr

/-- An `ast.Decl`. -/
inductive Decl
  | funcDecl (f : FuncDecl)
  | genDecl (d : GenDecl)
  | badDecl
  deriving Repr

/-! ## The state -/

/-- Everything the visitor reads and writes: the `Visitor` fields
`modulename`, `module`, `builder` (its insertion point: the end of block
`(function index, block index)`, if any) and `functions` (the nesting
stack), the objects of the syntax tree, and `iota`, the `Data` field of the
universe object `types.Universe.Lookup("iota")`, which is an object of its
own that no declared identifier points to. -/
structure State where
  modulename : String
  module : Module
  builder : Option (Nat × Nat)
  functions : List Value
  objs : Nat → Object
  iota : Data

/-- How a call ends: it returns `a` in state `s`, it panics in state `s`, or
the process dies inside the LLVM C library. -/
inductive Outcome (α : Type)
  | ok (a : α) (s : State)
  | panic (s : State)
  | fault

/-- The collaborators outside `decl.go`. `UniqueName m name` is the name
LLVM gives a new symbol of module `m` when the requested `name` is already
the name of a symbol of `m` (a suffix is appended; the scheme differs
between LLVM versions). -/
structure Env where
  IsUpper : Char → Bool
  UniqueName : Module → String → String
  VisitExpr : Expr → State → Outcome Value
  VisitBlockStmt : BlockStmt → State → Outcome Unit
  VisitFuncType : FuncType → State → Outcome LType

/-- The Go method `Ident.IsExported()`: `unicode.IsUpper` of the first rune
of the name. -/
def Ident.IsExported (env : Env) (id : Ident) : Bool :=
  match id.name.data with
  | [] => false
  | c :: _ => env.IsUpper c

/-- Store `d` in the `Data` field of object `o`. -/
def State.setData (s : State) (o : Nat) (d : Data) : State :=
  { s with objs := fun p => if p = o then { (s.objs p) with data := d } else s.objs p }

/-- Store `k` in the `Kind` field of object `o`. -/
def State.setKind (s : State) (o : Nat) (k : ObjKind) : State :=
  { s with objs := fun p => if p = o then { (s.objs p) with kind := k } else s.objs p }

/-! ## The LLVM calls -/

/-- Whether `name` is the name of a symbol of the module. Globals and
functions share the symbol table of the module; the empty name is no name
and is never taken. -/
def nameTaken (m : Module) (name : String) : Bool :=
  name != "" &&
    (m.globals.any (fun g => g.name == name) || m.funcs.any (fun f => f.name == name))

/-- The name a new symbol gets when `name` is requested for it: `name`
itself when no symbol of the module has it, the name LLVM makes up from it
otherwise. -/
def symbolName (env : Env) (m : Module) (name : String) : String :=
  if nameTaken m name then env.UniqueName m name else name

/-- The Go function `llvm.AddGlobal(module, t, name)`: a new global at the
end of the module, external linkage, no initializer; returns its handle.
The global gets the requested name unless the module already has a symbol
of that name. -/
def AddGlobal (env : Env) (s : State) (t : LType) (name : String) : State × Value :=
  let g : Global :=
    { name := symbolName env s.module name, ty := t, initializer := .null, isconstant := false,
      linkage := .ExternalLinkage, indirect := false }
  ({ s with module := { s.module with globals := s.module.globals ++ [g] } },
   .global s.module.globals.length t)

/-- Apply `f` to the global a handle denotes. -/
def modifyGlobal (s : State) (v : Value) (f : Global → Global) : State :=
  match v with
  | .global id _ => { s with module := { s.module with globals := updateAt s.module.globals id f } }
  | _ => s

/-- Apply `f` to the function a handle denotes. -/
def modifyFunction (s : State) (v : Value) (f : Function → Function) : State :=
  match v with
  | .function id _ => { s with module := { s.module with funcs := updateAt s.module.funcs id f } }
  | _ => s

/-- The Go method `Value.SetInitializer(init)`. -/
def SetInitializer (s : State) (v init : Value) : State :=
  modifyGlobal s v (fun g => { g with initializer := init })

/-- The Go method `Value.SetGlobalConstant(b)`. -/
def SetGlobalConstant (s : State) (v : Value) (b : Bool) : State :=
  modifyGlobal s v (fun g => { g with isconstant := b })

/-- The Go method `Value.SetLinkage(l)`, on a global or a function. -/
def SetLinkage (s : State) (v : Value) (l : Linkage) : State :=
  match v with
  | .global _ _ => modifyGlobal s v (fun g => { g with linkage := l })
  | _ => modifyFunction s v (fun fn => { fn with linkage := l })

/-- The Go method `Value.SetFunctionCallConv(cc)`. -/
def SetFunctionCallConv (s : State) (v : Value) (cc : CallConv) : State :=
  modifyFunction s v (fun fn => { fn with callconv := cc })

/-- The Go method `Value.Initializer()`: the stored initializer of the
global, the null handle when it has none. -/
def Initializer (s : State) (v : Value) : Value :=
  match v with
  | .global id _ =>
    match s.module.globals[id]? with
    | some g => g.initializer
    | none => .null
  | _ => .null

/-- Modelled from the spec: `isglobal` is defined outside `decl.go`; by
section 4.3 it tells whether the initializer "is itself a reference to
another already-materialized global constant", that is, whether the value
is a global variable. -/
def isglobal (v : Value) : Bool :=
  !v.IsAGlobalVariable.IsNil

/-- Modelled from the spec: `setindirect` is defined outside `decl.go`; by
sections 3 and 4.3 it sets the addressing-mode tag of the global to
"indirect". -/
def setindirect (s : State) (v : Value) : State :=
  modifyGlobal s v (fun g => { g with indirect := true })

/-- The Go function `llvm.AddFunction(module, name, t)`: a new function at
the end of the module, external linkage, C calling convention, no blocks;
returns its handle. The function gets the requested name unless the module
already has a symbol of that name. -/
def AddFunction (env : Env) (s : State) (name : String) (t : LType) : State × Value :=
  let f : Function :=
    { name := symbolName env s.module name, ty := t, linkage := .ExternalLinkage,
      callconv := .CCallConv, blocks := [] }
  ({ s with module := { s.module with funcs := s.module.funcs ++ [f] } },
   .function s.module.funcs.length t)

/-- The Go function `llvm.AddBasicBlock(fn, name)`: a new empty block at the
end of the function; returns the block as `(function index, block index)`.
The C API casts the handle to a function without a check; on a handle that
is not a function of the module its behaviour is undefined (`none`). -/
def AddBasicBlock (s : State) (fn : Value) (name : String) : Option (State × (Nat × Nat)) :=
  match fn with
  | .function id _ =>
    match s.module.funcs[id]? with
    | some f =>
      let addBlock : Function → Function :=
        fun g => { g with blocks := g.blocks ++ [{ name := name, instrs := [] }] }
      some (modifyFunction s fn addBlock, (id, f.blocks.length))
    | none => none
  | _ => none

/-- The Go method `Builder.SetInsertPointAtEnd(block)`. -/
def SetInsertPointAtEnd (s : State) (block : Nat × Nat) : State :=
  { s with builder := some block }

/-- The Go method `Value.LastBasicBlock()` of a function: its last block, if
the handle denotes a function that has one. -/
def LastBasicBlock (s : State) (fn : Value) : Option BasicBlock :=
  match fn with
  | .function id _ =>
    match s.module.funcs[id]? with
    | some f => f.blocks.getLast?
    | none => none
  | _ => none

/-- The Go method `BasicBlock.LastInstruction()`: `none` is the nil
instruction of an empty block. -/
def LastInstruction (b : BasicBlock) : Option Instr :=
  b.instrs.getLast?

/-- The Go method `Builder.CreateRetVoid()`: a `ret void` at the insertion
point of the builder. -/
def CreateRetVoid (s : State) : State :=
  match s.builder with
  | some (fi, bi) =>
    let addRet : BasicBlock → BasicBlock := fun b => { b with instrs := b.instrs ++ [Instr.retVoid] }
    let inFn : Function → Function := fun f => { f with blocks := updateAt f.blocks bi addRet }
    { s with module := { s.module with funcs := updateAt s.module.funcs fi inFn } }
  | none => s

/-! ## `decl.go` -/

/-- Lines 34-47 of `decl.go`. -/
def VisitFuncProtoDecl (env : Env) (f : FuncDecl) (s : State) : Outcome Value :=
  match env.VisitFuncType f.type s with
  | .panic s1 => .panic s1
  | .fault => .fault
  | .ok fn_type s1 =>
    let fn_name := f.name.name
    if s1.modulename = "main" ∧ fn_name = "main" then
      let (s2, fn) := AddFunction env s1 "main" fn_type
      .ok fn (SetLinkage s2 fn .ExternalLinkage)
    else
      let fn_name := if fn_name = "init" then "" else fn_name
      let (s2, fn) := AddFunction env s1 fn_name fn_type
      .ok fn (SetFunctionCallConv s2 fn .FastCallConv)

/-- Lines 70-77 of `decl.go`, the completion of the terminator, run when the
return type is void: `none` when the function has no last block to ask for
its last instruction. -/
def completeTerminator (s : State) (fn : Value) : Option State :=
  match LastBasicBlock s fn with
  | none => none
  | some last_block =>
    match LastInstruction last_block with
    | none => some (CreateRetVoid s)
    | some lasti => if lasti.Opcode ≠ Opcode.Ret then some (CreateRetVoid s) else some s

/-- Lines 53-60 of `decl.go`: the function value already stored in the
object of the name, or a new prototype when the object holds nothing; a
panic when it holds something that is not an `llvm.Value`. -/
def lookupOrDeclare (env : Env) (f : FuncDecl) (s : State) : Outcome Value :=
  match (s.objs f.name.obj).data with
  | .nil => VisitFuncProtoDecl env f s
  | .value fn => .ok fn s
  | _ => .panic s

/-- Line 66 of `decl.go`: `if f.Body != nil {self.VisitBlockStmt(f.Body)}`. -/
def lowerBody (env : Env) (body : Option BlockStmt) (s : State) : Outcome Unit :=
  match body with
  | some b => env.VisitBlockStmt b s
  | none => .ok () s

/-- Lines 67-87 of `decl.go`, what follows the lowering of the body: the
pop of the nesting stack (the slice expression panics on an empty stack),
the completion of the terminator of a void function, and the binding of the
name, or the panic for `init`. -/
def finishFuncDecl (f : FuncDecl) (fn : Value) (s5 : State) : Outcome Value :=
  if s5.functions.length = 0 then .panic s5 else
  let s6 := { s5 with functions := s5.functions.dropLast }
  match fn.Type.bind LType.ReturnType with
  | none => .fault
  | some fn_type =>
    match fn_type.ReturnType with
    | none => .fault
    | some rt =>
      let r7 : Option State :=
        if rt.TypeKind = TypeKind.VoidTypeKind then completeTerminator s6 fn else some s6
      match r7 with
      | none => .fault
      | some s7 =>
        if f.name.name = "init" then .panic s7
        else .ok fn (s7.setData f.name.obj (.value fn))

/-- Lines 49-88 of `decl.go`. -/
def VisitFuncDecl (env : Env) (f : FuncDecl) (s : State) : Outcome Value :=
  match lookupOrDeclare env f s with
  | .panic s1 => .panic s1
  | .fault => .fault
  | .ok fn s1 =>
    match AddBasicBlock s1 fn "entry" with
    | none => .fault
    | some (s2, entry) =>
      let s3 := SetInsertPointAtEnd s2 entry
      let s4 := { s3 with functions := s3.functions ++ [fn] }
      match lowerBody env f.body s4 with
      | .panic s5 => .panic s5
      | .fault => .fault
      | .ok _ s5 => finishFuncDecl f fn s5

/-- Lines 133-134 of `decl.go`:
`!(value.IsAConstantInt().IsNil() || value.IsAConstantFP().IsNil())`. -/
def constprim (value : Value) : Bool :=
  !(value.IsAConstantInt.IsNil || value.IsAConstantFP.IsNil)

/-- Lines 141-147 of `decl.go`: the initializer of the new global; for a
constant that is assigned another global it is that global's initializer. -/
def initOf (isconst : Bool) (s : State) (value : Value) : Value :=
  if isconst && !value.IsNil && isglobal value then Initializer s value else value

/-- Lines 149-159 of `decl.go`: create the global for `name`, store it in
the object, tag it. `none` when the initializer has no type to ask for. -/
def materialize (env : Env) (isconst exported : Bool) (name : String) (obj : Nat)
    (init_ : Value) (s : State) : Option State :=
  match init_.Type with
  | none => none
  | some t =>
    let (s1, value) := AddGlobal env s t name
    let s2 := if !init_.IsNil then SetInitializer s1 value init_ else s1
    let s3 := if isconst then SetGlobalConstant s2 value true else s2
    let s4 := if !exported then SetLinkage s3 value .InternalLinkage else s3
    let s5 := s4.setData obj (.value value)
    some (if t.TypeKind ≠ TypeKind.ArrayTypeKind then setindirect s5 value else s5)

/-- Lines 130-161 of `decl.go`: what is done with the evaluated `value` of
the name. -/
def bindName (env : Env) (isconst : Bool) (name_ : Ident) (value : Value)
    (s : State) : Option State :=
  let obj := name_.obj
  let name := name_.name
  if name ≠ "_" then
    let exported := name_.IsExported env
    if isconst && constprim value && !exported then
      some ((s.setKind obj ObjKind.Con).setData obj (.value value))
    else
      materialize env isconst exported name obj (initOf isconst s value) s
  else some s

/-- Lines 109-121 of `decl.go` ("Set iota if necessary"): in a constant
group, a name whose object carries an `int` ordinal puts the ordinal, as a
32-bit constant, into the iota object and replaces the local `valspec` by
the `*ast.ValueSpec` of the object's `Decl` (nil when it holds none). -/
def setIota (isconst : Bool) (name_ : Ident) (cur : Option ValueSpec) (s : State) :
    Option ValueSpec × State :=
  match isconst, (s.objs name_.obj).data with
  | true, .int iota_ =>
    ((s.objs name_.obj).decl, { s with iota := .value (ConstInt Int32Type (uint64 iota_)) })
  | _, _ => (cur, s)

/-- Lines 105-161 of `decl.go`, one turn of the loop over `valspec.Names`
for the name `name_` at index `i`. `cur` is the local variable `valspec`
(`none` for a nil pointer), which the turn may reassign. The first
component lists the expressions handed to `VisitExpr` by this turn. -/
def visitName (env : Env) (isconst : Bool) (i : Nat) (name_ : Ident)
    (cur : Option ValueSpec) (s : State) : List Expr × Outcome (Option ValueSpec) :=
  match (s.objs name_.obj).data with
  | .value _ => ([], .ok cur s)
  | _ =>
    match setIota isconst name_ cur s with
    | (none, s1) => ([], .panic s1)
    | (some vs, s1) =>
      match vs.values[i]? with
      | none => ([], .panic s1)
      | some none =>
        match bindName env isconst name_ .null s1 with
        | none => ([], .fault)
        | some s3 => ([], .ok (some vs) s3)
      | some (some e) =>
        match env.VisitExpr e s1 with
        | .panic s2 => ([e], .panic s2)
        | .fault => ([e], .fault)
        | .ok value s2 =>
          match bindName env isconst name_ value s2 with
          | none => ([e], .fault)
          | some s3 => ([e], .ok (some vs) s3)

/-- Lines 104-162 of `decl.go`: the loop over the names, from index `i`. -/
def visitNames (env : Env) (isconst : Bool) :
    List Ident → Nat → Option ValueSpec → State → List Expr × Outcome Unit
  | [], _, _, s => ([], .ok () s)
  | name_ :: rest, i, cur, s =>
    match visitName env isconst i name_ cur s with
    | (tr, .ok cur1 s1) =>
      let r := visitNames env isconst rest (i + 1) cur1 s1
      (tr ++ r.1, r.2)
    | (tr, .panic s1) => (tr, .panic s1)
    | (tr, .fault) => (tr, .fault)

/-- Lines 90-163 of `decl.go`. The deferred closure receives the `Data` of
the iota object as it is on entry and writes it back when the function
returns or panics. The range expression `valspec.Names` is evaluated once,
before the loop; a nil `valspec` panics there. The first component lists
the expressions this call handed to `VisitExpr`, in order. -/
def VisitValueSpec (env : Env) (valspec : Option ValueSpec) (isconst : Bool)
    (s : State) : List Expr × Outcome Unit :=
  let data := s.iota
  match valspec with
  | none => ([], .panic { s with iota := data })
  | some vs =>
    match visitNames env isconst vs.names 0 valspec s with
    | (tr, .ok _ s1) => (tr, .ok () { s1 with iota := data })
    | (tr, .panic s1) => (tr, .panic { s1 with iota := data })
    | (tr, .fault) => (tr, .fault)

/-- The Go type assertion `spec.(*ast.ValueSpec)` with the `ok` result
dropped: nil for a spec of another kind. -/
def Spec.asValueSpec : Spec → Option ValueSpec
  | .valueSpec vs => some vs
  | .otherSpec => none

/-- The loops of lines 172-175 and 178-181 of `decl.go`. -/
def visitSpecs (env : Env) (isconst : Bool) : List Spec → State → List Expr × Outcome Unit
  | [], s => ([], .ok () s)
  | spec :: rest, s =>
    match VisitValueSpec env spec.asValueSpec isconst s with
    | (tr, .ok _ s1) =>
      let r := visitSpecs env isconst rest s1
      (tr ++ r.1, r.2)
    | (tr, .panic s1) => (tr, .panic s1)
    | (tr, .fault) => (tr, .fault)

/-- Lines 165-184 of `decl.go`. -/
def VisitGenDecl (env : Env) (decl : GenDecl) (s : State) : List Expr × Outcome Unit :=
  match decl.tok with
  | .IMPORT => ([], .ok () s)
  | .TYPE => ([], .panic s)
  | .CONST => visitSpecs env true decl.specs s
  | .VAR => visitSpecs env false decl.specs s
  | .OTHER => ([], .ok () s)

/-- Lines 186-197 of `decl.go`. -/
def VisitDecl (env : Env) (decl : Decl) (s : State) : Outcome Value :=
  match decl with
  | .funcDecl x => VisitFuncDecl env x s
  | .genDecl x =>
    match (VisitGenDecl env x s).2 with
    | .ok _ s1 => .ok .null s1
    | .panic s1 => .panic s1
    | .fault => .fault
  | .badDecl => .panic s

/-! ## Assumptions on the collaborators -/

/-- The contract of expression lowering under which whole groups are
followed: on every expression and state `VisitExpr` returns normally, the
value is not the null handle, a global it returns has an initializer, and
the objects listed in `os` are left as they were. -/
def LowersCleanly (env : Env) (os : List Nat) : Prop :=
  ∀ e s, ∃ v s1, env.VisitExpr e s = Outcome.ok v s1 ∧ v ≠ Value.null ∧
    (isglobal v = true → Initializer s1 v ≠ Value.null) ∧
    ∀ o ∈ os, s1.objs o = s.objs o

/-- The contract of statement lowering under which a function declaration
is followed to its end: `VisitBlockStmt` returns normally, leaves the
nesting stack as it found it, adds no function to the module and leaves a
last block in every function that had one. -/
def BodyLowersCleanly (env : Env) : Prop :=
  ∀ b s, ∃ s1, env.VisitBlockStmt b s = Outcome.ok () s1 ∧
    s1.functions = s.functions ∧
    s1.module.funcs.length = s.module.funcs.length ∧
    ∀ fn, LastBasicBlock s fn ≠ none → LastBasicBlock s1 fn ≠ none

/-- The instructions of block `bi` of function `fi`, if there is such a
block. -/
def blockInstrs (s : State) (fi bi : Nat) : Option (List Instr) :=
  match s.module.funcs[fi]? with
  | some f =>
    match f.blocks[bi]? with
    | some b => some b.instrs
    | none => none
  | none => none

/-! ## Concrete inputs -/

/-- A state with an empty module, no object bound, and a nil iota slot. -/
def emptyState : State :=
  { modulename := "main"
    module := { globals := [], funcs := [] }
    builder := none
    functions := []
    objs := fun _ => { kind := .Var, data := .nil, decl := none }
    iota := .nil }

/-- Collaborators that change nothing: an expression lowers to the 32-bit
constant of its number, a body lowers to nothing, every function type is
`void ()`; a taken name gets a dot and the number of symbols appended. -/
def pureEnv : Env :=
  { IsUpper := Char.isUpper
    UniqueName := fun m name => name ++ "." ++ toString (m.globals.length + m.funcs.length)
    VisitExpr := fun e s => .ok (ConstInt Int32Type e.id) s
    VisitBlockStmt := fun _ s => .ok () s
    VisitFuncType := fun _ s => .ok (.function .void []) s }

/-- The expression `iota`. -/
def iotaExpr : Expr := { id := 0 }

/-- The spec `a = iota`, the first of `const (a = iota; b; c)`; it introduces
the expression list the other two specs repeat. -/
def iotaSpecA : ValueSpec :=
  { names := [{ name := "a", obj := 0 }], values := [some iotaExpr] }

/-- The spec `b` of `const (a = iota; b; c)`. -/
def iotaSpecB : ValueSpec :=
  { names := [{ name := "b", obj := 1 }], values := [] }

/-- The spec `c` of `const (a = iota; b; c)`. -/
def iotaSpecC : ValueSpec :=
  { names := [{ name := "c", obj := 2 }], values := [] }

/-- The declaration `const (a = iota; b; c)`. -/
def iotaDecl : GenDecl :=
  { tok := .CONST
    specs := [.valueSpec iotaSpecA, .valueSpec iotaSpecB, .valueSpec iotaSpecC] }

/-- The state before `const (a = iota; b; c)` is visited: object `p` of
`a`, `b`, `c` carries the ordinal `p` and, in `Decl`, the spec with the
expression list. -/
def iotaState : State :=
  { emptyState with
    objs := fun p => if p < 3 then { kind := .Con, data := .int p, decl := some iotaSpecA }
      else emptyState.objs p }

/-- Collaborators like `pureEnv`, except that the expression `iota` lowers
to the value in the iota slot. -/
def iotaEnv : Env :=
  { pureEnv with
    VisitExpr := fun e s =>
      if e = iotaExpr then
        match s.iota with
        | .value v => .ok v s
        | _ => .panic s
      else .ok (ConstInt Int32Type e.id) s }

/-- The group of `var a, b = e1` (one initializer for two names, as with a
call that returns two values). -/
def shortGroup : ValueSpec :=
  { names := [{ name := "a", obj := 0 }, { name := "b", obj := 1 }], values := [some { id := 1 }] }

/-- The group of `var _ = e7`. -/
def blankGroup : ValueSpec :=
  { names := [{ name := "_", obj := 0 }], values := [some { id := 7 }] }

/-- The group of `var x = e3`. -/
def xGroup : ValueSpec :=
  { names := [{ name := "x", obj := 0 }], values := [some { id := 3 }] }

/-- The declaration `func f() { b0 }`. -/
def fDecl : FuncDecl :=
  { name := { name := "f", obj := 0 }, type := { id := 0 }, body := some { id := 0 } }

/-- The declaration `func g()` without a body. -/
def gDecl : FuncDecl :=
  { name := { name := "g", obj := 0 }, type := { id := 0 }, body := none }

/-- The declaration `func init()` without a body. -/
def initDecl : FuncDecl :=
  { name := { name := "init", obj := 0 }, type := { id := 0 }, body := none }

/-- Collaborators like `pureEnv`, except that the lowering of a body panics
at once, leaving the state as it found it. -/
def panicEnv : Env :=
  { pureEnv with VisitBlockStmt := fun _ s => .panic s }

/-- The state in which `VisitFuncDecl pureEnv gDecl emptyState` reaches line
66: the prototype of `g` is in the module with its entry block, the builder
stands at the end of that block, and `g` is on the nesting stack. -/
def gEntered : State :=
  match lookupOrDeclare pureEnv gDecl emptyState with
  | .ok fn s1 =>
    match AddBasicBlock s1 fn "entry" with
    | some (s2, entry) =>
      { SetInsertPointAtEnd s2 entry with
        functions := (SetInsertPointAtEnd s2 entry).functions ++ [fn] }
    | none => emptyState
  | _ => emptyState

/-! ## Basic facts -/

theorem constprim_eq_false (v : Value) : constprim v = false := by
  cases v <;> rfl

theorem updateAt_append_length {α : Type} (l : List α) (x : α) (f : α → α) :
    updateAt (l ++ [x]) l.length f = l ++ [f x] := by
  induction l with
  | nil => rfl
  | cons y ys ih => simp [updateAt, ih]

theorem isNil_eq_false_of_type {v : Value} {t : LType} (h : v.Type = some t) :
    v.IsNil = false := by
  cases v <;> simp [Value.Type, Value.IsNil] at h ⊢

/-- The state `materialize` produces: one global more, the object bound to
its handle, nothing else touched. -/
theorem materialize_eq (env : Env) (isconst exported : Bool) (name : String) (obj : Nat)
    (init_ : Value) (s : State) (t : LType) (ht : init_.Type = some t) :
    materialize env isconst exported name obj init_ s = some
      { s with
        module := { s.module with globals := s.module.globals ++
          [{ name := symbolName env s.module name, ty := t, initializer := init_, isconstant := isconst,
             linkage := if exported then Linkage.ExternalLinkage else Linkage.InternalLinkage,
             indirect := decide (t.TypeKind ≠ TypeKind.ArrayTypeKind) }] }
        objs := fun p => if p = obj then
          { (s.objs p) with data := Data.value (Value.global s.module.globals.length t) }
          else s.objs p } := by
  have hnil := isNil_eq_false_of_type ht
  unfold materialize
  rw [ht]
  cases isconst <;> cases exported <;> by_cases hk : t.TypeKind = TypeKind.ArrayTypeKind <;>
    simp [AddGlobal, SetInitializer, SetGlobalConstant, SetLinkage, setindirect, modifyGlobal,
      State.setData, updateAt_append_length, hnil, hk]

theorem type_of_ne_null {v : Value} (h : v ≠ Value.null) : ∃ t, v.Type = some t := by
  cases v <;> simp [Value.Type] at h ⊢

/-- The initializer of a new global has a type as soon as the evaluated
value is not null and, where a constant takes over the initializer of
another global, that global has one. -/
theorem initOf_type {isconst : Bool} {s : State} {v : Value} (hv : v ≠ Value.null)
    (hg : isconst = true → isglobal v = true → Initializer s v ≠ Value.null) :
    ∃ t, (initOf isconst s v).Type = some t := by
  unfold initOf
  split
  · rename_i hc
    simp only [Bool.and_eq_true] at hc
    exact type_of_ne_null (hg hc.1.1 hc.2)
  · exact type_of_ne_null hv

/-- A non-blank name is never folded: `constprim` is always false, so
`bindName` always materializes. -/
theorem bindName_nonblank (env : Env) (isconst : Bool) (nm : Ident) (v : Value) (s : State)
    (hname : nm.name ≠ "_") :
    bindName env isconst nm v s =
      materialize env isconst (nm.IsExported env) nm.name nm.obj (initOf isconst s v) s := by
  simp [bindName, hname, constprim_eq_false]

theorem bindName_blank (env : Env) (isconst : Bool) (nm : Ident) (v : Value) (s : State)
    (hname : nm.name = "_") : bindName env isconst nm v s = some s := by
  simp [bindName, hname]

/-- A turn of the loop on a name that is already bound does nothing. -/
theorem visitName_bound (env : Env) (isconst : Bool) (i : Nat) (nm : Ident)
    (cur : Option ValueSpec) (s : State) (w : Value)
    (hb : (s.objs nm.obj).data = Data.value w) :
    visitName env isconst i nm cur s = ([], Outcome.ok cur s) := by
  simp [visitName, hb]

/-- A turn of the loop on an unbound name, up to the evaluation of its
initializer `e` with result `v` in state `s2`. -/
theorem visitName_eval (env : Env) (isconst : Bool) (i : Nat) (nm : Ident)
    (cur : Option ValueSpec) (s s1 s2 : State) (vs : ValueSpec) (e : Expr) (v : Value)
    (hunb : ∀ w, (s.objs nm.obj).data ≠ Data.value w)
    (hset : setIota isconst nm cur s = (some vs, s1))
    (hval : vs.values[i]? = some (some e))
    (hev : env.VisitExpr e s1 = Outcome.ok v s2) :
    visitName env isconst i nm cur s =
      match bindName env isconst nm v s2 with
      | none => ([e], Outcome.fault)
      | some s3 => ([e], Outcome.ok (some vs) s3) := by
  unfold visitName
  cases hd : (s.objs nm.obj).data with
  | value w => exact absurd hd (hunb w)
  | nil => simp [hset, hval, hev]
  | int n => simp [hset, hval, hev]
  | other k => simp [hset, hval, hev]

/-- What `setIota` leaves in the local `valspec` lists the initializers
`vals`, provided the incoming `valspec` does, or the name carries an
ordinal and its `Decl` does. -/
theorem setIota_values (isconst : Bool) (nm : Ident) (cur : Option ValueSpec) (s : State)
    (vals : List Expr)
    (hdecl : isconst = true → ∀ n, (s.objs nm.obj).data = Data.int n →
      ∃ d, (s.objs nm.obj).decl = some d ∧ d.values = vals.map some)
    (hcur : (∃ c, cur = some c ∧ c.values = vals.map some) ∨
      (isconst = true ∧ ∃ n, (s.objs nm.obj).data = Data.int n)) :
    ∃ c s1, setIota isconst nm cur s = (some c, s1) ∧ c.values = vals.map some ∧
      s1.objs = s.objs := by
  unfold setIota
  cases isconst with
  | false =>
    rcases hcur with ⟨c, hc, hv⟩ | ⟨h, _⟩
    · exact ⟨c, s, by simp [hc], hv, rfl⟩
    · cases h
  | true =>
    cases hd : (s.objs nm.obj).data with
    | int n =>
      obtain ⟨d, hd1, hd2⟩ := hdecl rfl n hd
      exact ⟨d, { s with iota := Data.value (ConstInt Int32Type (uint64 n)) }, by simp [hd1],
        hd2, rfl⟩
    | nil =>
      rcases hcur with ⟨c, hc, hv⟩ | ⟨_, n, hn⟩
      · exact ⟨c, s, by simp [hc], hv, rfl⟩
      · rw [hd] at hn; cases hn
    | value w =>
      rcases hcur with ⟨c, hc, hv⟩ | ⟨_, n, hn⟩
      · exact ⟨c, s, by simp [hc], hv, rfl⟩
      · rw [hd] at hn; cases hn
    | other k =>
      rcases hcur with ⟨c, hc, hv⟩ | ⟨_, n, hn⟩
      · exact ⟨c, s, by simp [hc], hv, rfl⟩
      · rw [hd] at hn; cases hn

/-- A turn on an unbound name whose initializer exists, with a clean
expression lowering: the initializer is evaluated once, the turn returns,
a non-blank name ends up bound, a blank name and every other listed object
are left as they were. -/
theorem visitName_turn (env : Env) (isconst : Bool) (vals : List Expr) (os : List Nat)
    (hc : LowersCleanly env os) (nm : Ident) (i : Nat) (cur : Option ValueSpec) (s : State)
    (hmem : nm.obj ∈ os)
    (hunb : ∀ w, (s.objs nm.obj).data ≠ Data.value w)
    (hdecl : isconst = true → ∀ n, (s.objs nm.obj).data = Data.int n →
      ∃ d, (s.objs nm.obj).decl = some d ∧ d.values = vals.map some)
    (hcur : (∃ c, cur = some c ∧ c.values = vals.map some) ∨
      (isconst = true ∧ ∃ n, (s.objs nm.obj).data = Data.int n))
    (e : Expr) (he : vals[i]? = some e) :
    ∃ c s1, visitName env isconst i nm cur s = ([e], Outcome.ok (some c) s1) ∧
      c.values = vals.map some ∧
      (nm.name ≠ "_" → ∃ w, (s1.objs nm.obj).data = Data.value w) ∧
      (nm.name = "_" → s1.objs nm.obj = s.objs nm.obj) ∧
      (∀ o ∈ os, o ≠ nm.obj → s1.objs o = s.objs o) := by
  obtain ⟨c, s1, hset, hcv, hobjs⟩ := setIota_values isconst nm cur s vals hdecl hcur
  have hval : c.values[i]? = some (some e) := by simp [hcv, he]
  obtain ⟨v, s2, hev, hv, hg, hfr⟩ := hc e s1
  have hfr2 : ∀ o ∈ os, s2.objs o = s.objs o := fun o ho => by rw [hfr o ho, hobjs]
  rw [visitName_eval env isconst i nm cur s s1 s2 c e v hunb hset hval hev]
  by_cases hname : nm.name = "_"
  · rw [bindName_blank env isconst nm v s2 hname]
    exact ⟨c, s2, rfl, hcv, fun h => absurd hname h, fun _ => hfr2 _ hmem,
      fun o ho _ => hfr2 o ho⟩
  · obtain ⟨t, ht⟩ := initOf_type hv (fun _ => hg)
    rw [bindName_nonblank env isconst nm v s2 hname, materialize_eq env _ _ _ _ _ _ t ht]
    refine ⟨c, _, rfl, hcv, fun _ => ⟨Value.global s2.module.globals.length t, by simp⟩,
      fun h => absurd h hname, ?_⟩
    intro o ho hne
    simp [hne, hfr2 o ho]

/-- A turn on an unbound name at an index the value list does not have:
the index expression panics before anything is evaluated or stored. -/
theorem visitName_short (env : Env) (isconst : Bool) (vals : List Expr) (nm : Ident) (i : Nat)
    (cur : Option ValueSpec) (s : State)
    (hunb : ∀ w, (s.objs nm.obj).data ≠ Data.value w)
    (hdecl : isconst = true → ∀ n, (s.objs nm.obj).data = Data.int n →
      ∃ d, (s.objs nm.obj).decl = some d ∧ d.values = vals.map some)
    (hcur : (∃ c, cur = some c ∧ c.values = vals.map some) ∨
      (isconst = true ∧ ∃ n, (s.objs nm.obj).data = Data.int n))
    (hi : vals.length ≤ i) :
    ∃ s1, visitName env isconst i nm cur s = ([], Outcome.panic s1) ∧ s1.objs = s.objs ∧
      s1.module = s.module := by
  obtain ⟨c, s1, hset, hcv, hobjs⟩ := setIota_values isconst nm cur s vals hdecl hcur
  have hval : c.values[i]? = none := by simp [hcv, hi]
  have hmod : s1.module = s.module := by
    unfold setIota at hset
    split at hset <;> simp at hset <;> rw [← hset.2]
  refine ⟨s1, ?_, hobjs, hmod⟩
  unfold visitName
  cases hd : (s.objs nm.obj).data with
  | value w => exact absurd hd (hunb w)
  | nil => simp [hset, hval]
  | int n => simp [hset, hval]
  | other k => simp [hset, hval]

/-- The whole loop with a clean expression lowering, from index `i` on
names that are unbound and have distinct objects: the initializers
`vals[i], vals[i+1], ...` of the names are evaluated once each, in order;
the loop returns when every name has one and panics at the first name that
has none; the non-blank names that had an initializer end up bound and no
other listed object is touched. -/
theorem visitNames_run (env : Env) (isconst : Bool) (vals : List Expr) (os : List Nat)
    (hc : LowersCleanly env os) :
    ∀ (rest : List Ident) (i : Nat) (cur : Option ValueSpec) (s : State),
      (∀ nm ∈ rest, nm.obj ∈ os) →
      (rest.map Ident.obj).Nodup →
      (∀ nm ∈ rest, ∀ w, (s.objs nm.obj).data ≠ Data.value w) →
      (isconst = true → ∀ nm ∈ rest, ∀ n, (s.objs nm.obj).data = Data.int n →
        ∃ d, (s.objs nm.obj).decl = some d ∧ d.values = vals.map some) →
      ((∃ c, cur = some c ∧ c.values = vals.map some) ∨
        (isconst = true ∧ ∃ nm tl n, rest = nm :: tl ∧ (s.objs nm.obj).data = Data.int n)) →
      i ≤ vals.length →
      ∃ s1, visitNames env isconst rest i cur s =
          ((vals.drop i).take rest.length,
            if i + rest.length ≤ vals.length then Outcome.ok () s1 else Outcome.panic s1) ∧
        (∀ o ∈ os, (∀ nm ∈ rest.take (vals.length - i), nm.name ≠ "_" → nm.obj ≠ o) →
          s1.objs o = s.objs o) ∧
        (∀ nm ∈ rest.take (vals.length - i), nm.name ≠ "_" →
          ∃ w, (s1.objs nm.obj).data = Data.value w) := by
  intro rest
  induction rest with
  | nil =>
    intro i cur s _ _ _ _ _ hi
    exact ⟨s, by simp [visitNames, hi], fun _ _ _ => rfl, by simp⟩
  | cons nm tl ih =>
    intro i cur s hsub hnd hunb hdecl hcur hi
    have hcur1 : (∃ c, cur = some c ∧ c.values = vals.map some) ∨
        (isconst = true ∧ ∃ n, (s.objs nm.obj).data = Data.int n) := by
      rcases hcur with h | ⟨hk, nm1, tl1, n, hcons, hn⟩
      · exact Or.inl h
      · obtain ⟨rfl, _⟩ := List.cons.inj hcons
        exact Or.inr ⟨hk, n, hn⟩
    have hnm : nm ∈ nm :: tl := List.mem_cons_self _ _
    have hnd1 : nm.obj ∉ tl.map Ident.obj ∧ (tl.map Ident.obj).Nodup := by
      simpa [List.nodup_cons] using hnd
    have hne : ∀ x ∈ tl, x.obj ≠ nm.obj := fun x hx hxe =>
      hnd1.1 (List.mem_map.mpr ⟨x, hx, hxe⟩)
    by_cases hlt : i < vals.length
    · obtain ⟨e, he⟩ : ∃ e, vals[i]? = some e := ⟨vals[i], by simp [hlt]⟩
      obtain ⟨c, s1, hturn, hcv, hbound, hblk, hframe⟩ :=
        visitName_turn env isconst vals os hc nm i cur s (hsub nm hnm) (hunb nm hnm)
          (fun hk => hdecl hk nm hnm) hcur1 e he
      have hsame : ∀ x ∈ tl, s1.objs x.obj = s.objs x.obj := fun x hx =>
        hframe x.obj (hsub x (List.mem_cons_of_mem _ hx)) (hne x hx)
      obtain ⟨s2, hrun, hfr2, hb2⟩ := ih (i + 1) (some c) s1
        (fun x hx => hsub x (List.mem_cons_of_mem _ hx)) hnd1.2
        (fun x hx w => by rw [hsame x hx]; exact hunb x (List.mem_cons_of_mem _ hx) w)
        (fun hk x hx n hn => by
          rw [hsame x hx] at hn ⊢
          exact hdecl hk x (List.mem_cons_of_mem _ hx) n hn)
        (Or.inl ⟨c, rfl, hcv⟩) hlt
      have hdrop : vals.drop i = e :: vals.drop (i + 1) := by
        rw [List.getElem?_eq_some] at he
        obtain ⟨h1, h2⟩ := he
        rw [← h2]
        exact List.drop_eq_getElem_cons h1
      have htake : (nm :: tl).take (vals.length - i) = nm :: tl.take (vals.length - (i + 1)) := by
        obtain ⟨k, hk⟩ : ∃ k, vals.length - i = k + 1 := ⟨vals.length - i - 1, by omega⟩
        have hk2 : vals.length - (i + 1) = k := by omega
        rw [hk, hk2, List.take_succ_cons]
      refine ⟨s2, ?_, ?_, ?_⟩
      · rw [visitNames, hturn]
        simp only [hrun, hdrop, List.length_cons, List.take_succ_cons, List.singleton_append]
        have hiff : (i + 1 + tl.length ≤ vals.length) ↔ (i + (tl.length + 1) ≤ vals.length) := by
          omega
        simp only [hiff]
      · intro o ho hall
        rw [htake] at hall
        rw [hfr2 o ho (fun x hx hxn => hall x (List.mem_cons_of_mem _ hx) hxn)]
        by_cases hblank : nm.name = "_"
        · by_cases hoe : o = nm.obj
          · subst hoe
            exact hblk hblank
          · exact hframe o ho hoe
        · exact hframe o ho (fun hoe => hall nm (List.mem_cons_self _ _) hblank hoe.symm)
      · intro x hx hxn
        rw [htake] at hx
        rcases List.mem_cons.mp hx with rfl | hx
        · obtain ⟨w, hw⟩ := hbound hxn
          refine ⟨w, ?_⟩
          rw [hfr2 x.obj (hsub x hnm) (fun y hy _ => hne y (List.mem_of_mem_take hy)), hw]
        · exact hb2 x hx hxn
    · have hieq : i = vals.length := by omega
      obtain ⟨s1, hturn, hobjs, _⟩ := visitName_short env isconst vals nm i cur s (hunb nm hnm)
        (fun hk => hdecl hk nm hnm) hcur1 (by omega)
      refine ⟨s1, ?_, fun o _ _ => by rw [hobjs], ?_⟩
      · rw [visitNames, hturn]
        have hno : ¬ (i + (nm :: tl).length ≤ vals.length) := by simp; omega
        simp [hno, hieq]
      · simp [hieq]

/-- The loop on names that are all bound does nothing. -/
theorem visitNames_all_bound (env : Env) (isconst : Bool) (s : State) :
    ∀ (rest : List Ident) (i : Nat) (cur : Option ValueSpec),
      (∀ nm ∈ rest, ∃ w, (s.objs nm.obj).data = Data.value w) →
      visitNames env isconst rest i cur s = ([], Outcome.ok () s) := by
  intro rest
  induction rest with
  | nil => intro i cur _; rfl
  | cons nm tl ih =>
    intro i cur h
    obtain ⟨w, hw⟩ := h nm (List.mem_cons_self _ _)
    rw [visitNames, visitName_bound env isconst i nm cur s w hw]
    simp [ih (i + 1) cur (fun x hx => h x (List.mem_cons_of_mem _ hx))]

/-- A visit of a whole group with a clean expression lowering, no name
bound and distinct objects. -/
theorem VisitValueSpec_run (env : Env) (isconst : Bool) (vs : ValueSpec) (s : State)
    (vals : List Expr)
    (hc : LowersCleanly env (vs.names.map Ident.obj))
    (hnd : (vs.names.map Ident.obj).Nodup)
    (hunb : ∀ nm ∈ vs.names, ∀ w, (s.objs nm.obj).data ≠ Data.value w)
    (hvals : vs.values = vals.map some ∨
      (isconst = true ∧ ∃ nm tl n, vs.names = nm :: tl ∧ (s.objs nm.obj).data = Data.int n))
    (hdecl : isconst = true → ∀ nm ∈ vs.names, ∀ n, (s.objs nm.obj).data = Data.int n →
      ∃ d, (s.objs nm.obj).decl = some d ∧ d.values = vals.map some) :
    ∃ s1, VisitValueSpec env (some vs) isconst s =
        (vals.take vs.names.length,
          if vs.names.length ≤ vals.length then Outcome.ok () s1 else Outcome.panic s1) ∧
      s1.iota = s.iota ∧
      (∀ nm ∈ vs.names, (∀ x ∈ vs.names.take vals.length, x.name ≠ "_" → x.obj ≠ nm.obj) →
        s1.objs nm.obj = s.objs nm.obj) ∧
      (∀ nm ∈ vs.names.take vals.length, nm.name ≠ "_" →
        ∃ w, (s1.objs nm.obj).data = Data.value w) := by
  obtain ⟨s1, hrun, hfr, hb⟩ := visitNames_run env isconst vals (vs.names.map Ident.obj) hc
    vs.names 0 (some vs) s (fun nm hnm => List.mem_map.mpr ⟨nm, hnm, rfl⟩) hnd hunb hdecl
    (hvals.imp (fun h => ⟨vs, rfl, h⟩) id) (Nat.zero_le _)
  simp only [Nat.zero_add, List.drop_zero, Nat.sub_zero] at hrun hfr hb
  by_cases hle : vs.names.length ≤ vals.length
  · refine ⟨{ s1 with iota := s.iota }, ?_, rfl, ?_, hb⟩
    · simp [VisitValueSpec, hrun, hle]
    · intro nm hnm hall
      exact hfr nm.obj (List.mem_map.mpr ⟨nm, hnm, rfl⟩) hall
  · refine ⟨{ s1 with iota := s.iota }, ?_, rfl, ?_, hb⟩
    · simp [VisitValueSpec, hrun, hle]
    · intro nm hnm hall
      exact hfr nm.obj (List.mem_map.mpr ⟨nm, hnm, rfl⟩) hall

theorem updateAt_length {α : Type} (f : α → α) :
    ∀ (l : List α) (n : Nat), (updateAt l n f).length = l.length
  | [], _ => rfl
  | _ :: _, 0 => rfl
  | _ :: xs, n + 1 => by simp [updateAt, updateAt_length f xs n]

theorem AddBasicBlock_functions {s s2 : State} {fn : Value} {name : String} {entry : Nat × Nat}
    (h : AddBasicBlock s fn name = some (s2, entry)) : s2.functions = s.functions := by
  unfold AddBasicBlock at h
  split at h
  · split at h
    · simp only [Option.some.injEq, Prod.mk.injEq] at h
      rw [← h.1]
      rfl
    · cases h
  · cases h

theorem CreateRetVoid_functions (s : State) : (CreateRetVoid s).functions = s.functions := by
  unfold CreateRetVoid
  split <;> rfl

theorem completeTerminator_functions {s s7 : State} {fn : Value}
    (h : completeTerminator s fn = some s7) : s7.functions = s.functions := by
  unfold completeTerminator at h
  split at h
  · cases h
  · split at h
    · cases h
      exact CreateRetVoid_functions s
    · split at h <;> cases h
      · exact CreateRetVoid_functions s
      · rfl

/-- The nesting stack after `lookupOrDeclare`, when `VisitFuncType` leaves
it alone. -/
theorem lookupOrDeclare_functions (env : Env) (f : FuncDecl) (s : State)
    (hty : ∀ t s0, match env.VisitFuncType t s0 with
      | Outcome.ok _ s1 => s1.functions = s0.functions
      | Outcome.panic s1 => s1.functions = s0.functions
      | Outcome.fault => True) :
    match lookupOrDeclare env f s with
    | Outcome.ok _ s1 => s1.functions = s.functions
    | Outcome.panic s1 => s1.functions = s.functions
    | Outcome.fault => True := by
  have h := hty f.type s
  unfold lookupOrDeclare
  cases hd : (s.objs f.name.obj).data with
  | value w => simp
  | int n => simp
  | other k => simp
  | nil =>
    simp only [VisitFuncProtoDecl]
    cases hr : env.VisitFuncType f.type s with
    | fault => simp
    | panic s1 => rw [hr] at h; simpa using h
    | ok ft s1 =>
      rw [hr] at h
      simp only at h
      by_cases hm : s1.modulename = "main" ∧ f.name.name = "main"
      · simpa [hm, AddFunction, SetLinkage, SetFunctionCallConv, modifyFunction] using h
      · simpa [hm, AddFunction, SetLinkage, SetFunctionCallConv, modifyFunction] using h

/-- The nesting stack after `finishFuncDecl`: the stack the body left, less
its top. -/
theorem finishFuncDecl_functions (f : FuncDecl) (fn : Value) (s5 : State) :
    match finishFuncDecl f fn s5 with
    | Outcome.ok _ s1 => s1.functions = s5.functions.dropLast
    | Outcome.panic s1 => s1.functions = s5.functions.dropLast
    | Outcome.fault => True := by
  unfold finishFuncDecl
  by_cases h0 : s5.functions.length = 0
  · simp [h0, List.length_eq_zero.mp h0]
  · cases h1 : fn.Type.bind LType.ReturnType with
    | none => simp [h0, h1]
    | some fty =>
      cases h2 : fty.ReturnType with
      | none => simp [h0, h1, h2]
      | some rt =>
        by_cases hv : rt.TypeKind = TypeKind.VoidTypeKind
        · cases h3 : completeTerminator { s5 with functions := s5.functions.dropLast } fn with
          | none => simp [h0, h1, h2, hv, h3]
          | some s7 =>
            have h4 := completeTerminator_functions h3
            by_cases hi : f.name.name = "init" <;>
              simp [h0, h1, h2, hv, h3, hi, h4, State.setData]
        · by_cases hi : f.name.name = "init" <;> simp [h0, h1, h2, hv, hi, State.setData]

theorem updateAt_getElem? {α : Type} (f : α → α) :
    ∀ (l : List α) (n m : Nat),
      (updateAt l n f)[m]? = if m = n then (l[m]?).map f else l[m]?
  | [], _, _ => by simp [updateAt]
  | _ :: _, 0, 0 => by simp [updateAt]
  | _ :: _, 0, m + 1 => by simp [updateAt]
  | _ :: _, n + 1, 0 => by simp [updateAt]
  | _ :: xs, n + 1, m + 1 => by simp [updateAt, updateAt_getElem? f xs n m]

/-- The `ret void` of `CreateRetVoid` lands at the end of the block the
builder stands in and nowhere else. -/
theorem CreateRetVoid_blockInstrs (s : State) (fi bi : Nat) (hb : s.builder = some (fi, bi))
    (fj bj : Nat) :
    blockInstrs (CreateRetVoid s) fj bj =
      if fj = fi ∧ bj = bi then (blockInstrs s fj bj).map (fun l => l ++ [Instr.retVoid])
      else blockInstrs s fj bj := by
  unfold CreateRetVoid blockInstrs
  rw [hb]
  simp only [updateAt_getElem?]
  by_cases h1 : fj = fi
  · subst h1
    cases hf : s.module.funcs[fj]? with
    | none => simp
    | some F =>
      by_cases h2 : bj = bi
      · subst h2
        cases hblk : F.blocks[bj]? <;> simp [updateAt_getElem?, hblk]
      · simp [updateAt_getElem?, h2]
  · simp [h1]

theorem CreateRetVoid_funcs_length (s : State) :
    (CreateRetVoid s).module.funcs.length = s.module.funcs.length := by
  unfold CreateRetVoid
  split
  · simp [updateAt_length]
  · rfl

/-- What `finishFuncDecl` does once the stack is not empty and the return
type of the function value is known. -/
theorem finishFuncDecl_eq (f : FuncDecl) (fn : Value) (s5 : State) (fty rt : LType)
    (hstack : s5.functions ≠ [])
    (hty : fn.Type.bind LType.ReturnType = some fty) (hrt : fty.ReturnType = some rt) :
    finishFuncDecl f fn s5 =
      match (if rt.TypeKind = TypeKind.VoidTypeKind
          then completeTerminator { s5 with functions := s5.functions.dropLast } fn
          else some { s5 with functions := s5.functions.dropLast }) with
      | none => Outcome.fault
      | some s7 =>
        if f.name.name = "init" then Outcome.panic s7
        else Outcome.ok fn (s7.setData f.name.obj (Data.value fn)) := by
  have h0 : ¬ s5.functions.length = 0 := fun h => hstack (List.length_eq_zero.mp h)
  simp [finishFuncDecl, h0, hty, hrt]

theorem LastBasicBlock_ne_none_of_eq {s s0 : State} {fn : Value}
    (hm : s.module = s0.module) (h : LastBasicBlock s0 fn ≠ none) :
    LastBasicBlock s fn ≠ none := by
  unfold LastBasicBlock at h ⊢
  rw [hm]
  exact h

/-- With a function handle of the module in hand, a name other than `init`
and a clean body lowering, `VisitFuncDecl` returns that handle, binds the
name to it and leaves the number of functions as `lookupOrDeclare` left
it. -/
theorem VisitFuncDecl_of_function (env : Env) (f : FuncDecl) (s s1 : State) (id : Nat)
    (ret : LType) (params : List LType)
    (hname : f.name.name ≠ "init")
    (hbody : BodyLowersCleanly env)
    (hfn : lookupOrDeclare env f s =
      Outcome.ok (Value.function id (LType.function ret params)) s1)
    (hvalid : id < s1.module.funcs.length) :
    ∃ s7 : State,
      VisitFuncDecl env f s = Outcome.ok (Value.function id (LType.function ret params))
        (s7.setData f.name.obj (Data.value (Value.function id (LType.function ret params)))) ∧
      s7.module.funcs.length = s1.module.funcs.length := by
  obtain ⟨F, hF⟩ : ∃ F, s1.module.funcs[id]? = some F := ⟨s1.module.funcs[id], by simp [hvalid]⟩
  have hbb : ∃ s2, AddBasicBlock s1 (Value.function id (LType.function ret params)) "entry"
        = some (s2, (id, F.blocks.length)) ∧
      s2.module.funcs.length = s1.module.funcs.length ∧ s2.functions = s1.functions ∧
      LastBasicBlock s2 (Value.function id (LType.function ret params)) ≠ none := by
    refine ⟨modifyFunction s1 (Value.function id (LType.function ret params))
      (fun g => { g with blocks := g.blocks ++ [{ name := "entry", instrs := [] }] }),
      by simp only [AddBasicBlock, hF], ?_, rfl, ?_⟩
    · simp [modifyFunction, updateAt_length]
    · simp [LastBasicBlock, modifyFunction, updateAt_getElem?, hF, List.getLast?_concat]
  obtain ⟨s2, hbb, hlen2, hst2, hlb2⟩ := hbb
  have hlow : ∃ s5, lowerBody env f.body
        { SetInsertPointAtEnd s2 (id, F.blocks.length) with
          functions := (SetInsertPointAtEnd s2 (id, F.blocks.length)).functions ++
            [Value.function id (LType.function ret params)] } = Outcome.ok () s5 ∧
      s5.functions = s2.functions ++ [Value.function id (LType.function ret params)] ∧
      s5.module.funcs.length = s2.module.funcs.length ∧
      LastBasicBlock s5 (Value.function id (LType.function ret params)) ≠ none := by
    cases hb : f.body with
    | none => exact ⟨_, rfl, rfl, rfl, LastBasicBlock_ne_none_of_eq rfl hlb2⟩
    | some b =>
      obtain ⟨s5, h1, h2, h3, h4⟩ := hbody b
        { SetInsertPointAtEnd s2 (id, F.blocks.length) with
          functions := (SetInsertPointAtEnd s2 (id, F.blocks.length)).functions ++
            [Value.function id (LType.function ret params)] }
      exact ⟨s5, h1, h2, h3, h4 _ (LastBasicBlock_ne_none_of_eq rfl hlb2)⟩
  obtain ⟨s5, hlow, hst5, hlen5, hlb5⟩ := hlow
  have hstack : s5.functions ≠ [] := by rw [hst5]; simp
  have hstart : VisitFuncDecl env f s =
      finishFuncDecl f (Value.function id (LType.function ret params)) s5 := by
    simp [VisitFuncDecl, hfn, hbb, hlow]
  rw [hstart, finishFuncDecl_eq f (Value.function id (LType.function ret params)) s5
    (LType.function ret params) ret hstack rfl rfl]
  obtain ⟨lb, hlb⟩ : ∃ lb, LastBasicBlock { s5 with functions := s5.functions.dropLast }
      (Value.function id (LType.function ret params)) = some lb :=
    Option.ne_none_iff_exists'.mp (LastBasicBlock_ne_none_of_eq rfl hlb5)
  by_cases hv : ret.TypeKind = TypeKind.VoidTypeKind
  · cases hli : LastInstruction lb with
    | none =>
      refine ⟨CreateRetVoid { s5 with functions := s5.functions.dropLast }, ?_, ?_⟩
      · simp [hv, completeTerminator, hlb, hli, hname]
      · rw [CreateRetVoid_funcs_length]
        simp [hlen5, hlen2]
    | some i =>
      by_cases hop : i.Opcode = Opcode.Ret
      · refine ⟨{ s5 with functions := s5.functions.dropLast }, ?_, ?_⟩
        · simp [hv, completeTerminator, hlb, hli, hop, hname]
        · simp [hlen5, hlen2]
      · refine ⟨CreateRetVoid { s5 with functions := s5.functions.dropLast }, ?_, ?_⟩
        · simp [hv, completeTerminator, hlb, hli, hop, hname]
        · rw [CreateRetVoid_funcs_length]
          simp [hlen5, hlen2]
  · refine ⟨{ s5 with functions := s5.functions.dropLast }, ?_, ?_⟩
    · simp [hv, hname]
    · simp [hlen5, hlen2]

/-- On an unbound name `lookupOrDeclare` adds one function, at the end of
the module as `VisitFuncType` left it, and returns its handle. -/
theorem lookupOrDeclare_nil (env : Env) (f : FuncDecl) (s s1 : State) (fty : LType)
    (hnil : (s.objs f.name.obj).data = Data.nil)
    (hft : env.VisitFuncType f.type s = Outcome.ok fty s1) :
    ∃ s2, lookupOrDeclare env f s = Outcome.ok (Value.function s1.module.funcs.length fty) s2 ∧
      s2.module.funcs.length = s1.module.funcs.length + 1 := by
  unfold lookupOrDeclare
  rw [hnil]
  simp only [VisitFuncProtoDecl, hft]
  by_cases hm : s1.modulename = "main" ∧ f.name.name = "main"
  · refine ⟨SetLinkage (AddFunction env s1 "main" fty).1 (AddFunction env s1 "main" fty).2
      Linkage.ExternalLinkage, ?_, ?_⟩
    · simp only [hm, and_self, if_true]
      rfl
    · simp [AddFunction, SetLinkage, modifyFunction, updateAt_length]
  · refine ⟨SetFunctionCallConv
      (AddFunction env s1 (if f.name.name = "init" then "" else f.name.name) fty).1
      (AddFunction env s1 (if f.name.name = "init" then "" else f.name.name) fty).2
      CallConv.FastCallConv, ?_, ?_⟩
    · simp only [hm, if_false]
      rfl
    · simp [AddFunction, SetFunctionCallConv, modifyFunction, updateAt_length]

/-! ## The concrete collaborators meet the contracts -/

theorem pureEnv_lowersCleanly (os : List Nat) : LowersCleanly pureEnv os := by
  intro e s
  exact ⟨ConstInt Int32Type e.id, s, rfl, by simp [ConstInt, Int32Type],
    by simp [ConstInt, Int32Type, isglobal, Value.IsAGlobalVariable, Value.IsNil],
    fun _ _ => rfl⟩

theorem pureEnv_bodyLowersCleanly : BodyLowersCleanly pureEnv :=
  fun _ s => ⟨s, rfl, rfl, rfl, fun _ h => h⟩

/-! ## Claims -/

/-- The iota slot an outcome carries, if the outcome carries a state. -/
theorem VisitValueSpec_iota (env : Env) (valspec : Option ValueSpec) (isconst : Bool)
    (s : State) :
    match (VisitValueSpec env valspec isconst s).2 with
    | Outcome.ok _ s1 => s1.iota = s.iota
    | Outcome.panic s1 => s1.iota = s.iota
    | Outcome.fault => True := by
  unfold VisitValueSpec
  cases valspec with
  | none => simp
  | some vs =>
    simp only
    rcases h : visitNames env isconst vs.names 0 (some vs) s with ⟨tr, o⟩
    cases o <;> simp

/-- C4: for every group and every starting state, the `Data` slot of the
iota object after `VisitValueSpec` equals its value before the call, whether
the call returns or panics partway through the group (a fault inside the
LLVM library ends the process and leaves no state). Consequently a group
visited while the enclosing group evaluates an initializer, after the
enclosing turn has put its ordinal into the slot with `setIota`, leaves
that ordinal in the slot. -/
theorem iota_restored_on_every_exit (env : Env) (valspec : Option ValueSpec) (isconst : Bool)
    (s : State) :
    (match (VisitValueSpec env valspec isconst s).2 with
      | Outcome.ok _ s1 => s1.iota = s.iota
      | Outcome.panic s1 => s1.iota = s.iota
      | Outcome.fault => True) ∧
    (∀ (outer : Ident) (cur : Option ValueSpec),
      match (VisitValueSpec env valspec isconst (setIota true outer cur s).2).2 with
      | Outcome.ok _ s1 => s1.iota = (setIota true outer cur s).2.iota
      | Outcome.panic s1 => s1.iota = (setIota true outer cur s).2.iota
      | Outcome.fault => True) :=
  ⟨VisitValueSpec_iota env valspec isconst s,
   fun outer cur => VisitValueSpec_iota env valspec isconst (setIota true outer cur s).2⟩

/-- C10: in a variable group whose names are unbound, have objects of their
own, and outnumber the initializers `vals` (expression lowering returning
cleanly), `VisitValueSpec` evaluates the initializers there are and then
panics instead of returning, and the names without an initializer are still
unbound in the state of the panic. At the level of a turn: on an unbound
name at an index the value list does not have, the turn panics on the
index expression with the state untouched. And wherever `VisitValueSpec`
creates a global (`materialize`), the global carries a non-null
initializer. -/
theorem var_group_short_of_values_panics (env : Env) (vs : ValueSpec) (s : State)
    (vals : List Expr)
    (hc : LowersCleanly env (vs.names.map Ident.obj))
    (hnd : (vs.names.map Ident.obj).Nodup)
    (hunb : ∀ nm ∈ vs.names, ∀ w, (s.objs nm.obj).data ≠ Data.value w)
    (hvals : vs.values = vals.map some)
    (hshort : vals.length < vs.names.length) :
    (∃ s1, VisitValueSpec env (some vs) false s = (vals, Outcome.panic s1) ∧
      ∀ nm ∈ vs.names.drop vals.length, ∀ w, (s1.objs nm.obj).data ≠ Data.value w) ∧
    (∀ (nm : Ident) (i : Nat) (c : ValueSpec) (s0 : State),
      (∀ w, (s0.objs nm.obj).data ≠ Data.value w) → c.values.length ≤ i →
      visitName env false i nm (some c) s0 = ([], Outcome.panic s0)) ∧
    (∀ (isconst exported : Bool) (name : String) (obj : Nat) (init_ : Value) (s0 s3 : State),
      materialize env isconst exported name obj init_ s0 = some s3 →
      ∃ g, s3.module.globals = s0.module.globals ++ [g] ∧ g.initializer ≠ Value.null) := by
  refine ⟨?_, ?_, ?_⟩
  · obtain ⟨s1, hrun, _, hfr, _⟩ := VisitValueSpec_run env false vs s vals hc hnd hunb
      (Or.inl hvals) (by intro h; cases h)
    refine ⟨s1, ?_, ?_⟩
    · rw [hrun, List.take_of_length_le (Nat.le_of_lt hshort)]
      simp [Nat.not_le.mpr hshort]
    · intro nm hnm w
      have hdis := List.disjoint_take_drop hnd (Nat.le_refl vals.length)
      rw [hfr nm (List.mem_of_mem_drop hnm) (fun x hx _ hxe => ?_)]
      · exact hunb nm (List.mem_of_mem_drop hnm) w
      · refine hdis (a := nm.obj) ?_ ?_
        · rw [← List.map_take]
          exact List.mem_map.mpr ⟨x, hx, hxe⟩
        · rw [← List.map_drop]
          exact List.mem_map.mpr ⟨nm, hnm, rfl⟩
  · intro nm i c s0 hu hi
    have hval : c.values[i]? = none := by simp [hi]
    unfold visitName
    cases hd : (s0.objs nm.obj).data with
    | value w => exact absurd hd (hu w)
    | nil => simp [setIota, hval]
    | int n => simp [setIota, hval]
    | other k => simp [setIota, hval]
  · intro isconst exported name obj init_ s0 s3 h
    cases ht : init_.Type with
    | none => simp [materialize, ht] at h
    | some t =>
      rw [materialize_eq env isconst exported name obj init_ s0 t ht] at h
      cases h
      refine ⟨_, rfl, ?_⟩
      intro hnull
      simp only at hnull
      rw [hnull] at ht
      cases ht

theorem var_group_short_of_values_panics_witness :
    (∃ s1, VisitValueSpec pureEnv (some shortGroup) false emptyState
        = ([{ id := 1 }], Outcome.panic s1) ∧
      ∀ nm ∈ shortGroup.names.drop [({ id := 1 } : Expr)].length,
        ∀ w, (s1.objs nm.obj).data ≠ Data.value w) ∧
    (∀ (nm : Ident) (i : Nat) (c : ValueSpec) (s0 : State),
      (∀ w, (s0.objs nm.obj).data ≠ Data.value w) → c.values.length ≤ i →
      visitName pureEnv false i nm (some c) s0 = ([], Outcome.panic s0)) ∧
    (∀ (isconst exported : Bool) (name : String) (obj : Nat) (init_ : Value) (s0 s3 : State),
      materialize pureEnv isconst exported name obj init_ s0 = some s3 →
      ∃ g, s3.module.globals = s0.module.globals ++ [g] ∧ g.initializer ≠ Value.null) :=
  var_group_short_of_values_panics pureEnv shortGroup emptyState [{ id := 1 }]
    (pureEnv_lowersCleanly _) (by decide) (by intro nm _ w h; cases h) rfl (by decide)

/-- C3 (as stated, refuted): a second visit does evaluate the initializer of
a blank name again. For `var _ = e7` the first visit returns and the second
visit hands `e7` to `VisitExpr` once more. -/
theorem second_visit_reevaluates_blank_name :
    ¬ (∀ (env : Env) (vs : ValueSpec) (isconst : Bool) (s s1 : State) (tr : List Expr),
      VisitValueSpec env (some vs) isconst s = (tr, Outcome.ok () s1) →
      (VisitValueSpec env (some vs) isconst s1).1 = []) := by
  intro h
  have h2 := h pureEnv blankGroup false emptyState emptyState [{ id := 7 }] rfl
  exact List.cons_ne_nil _ _ h2

/-- C3 (amended): a name that is bound to an IR value when a visit reaches
it is skipped: the turn changes nothing (the binding stays the identical
value, no global is added) and evaluates nothing. When every name of the
group is bound, the whole visit returns with the state unchanged and no
expression evaluated. And a first visit of a group without blank names
(no name bound, objects distinct, an initializer for each name, expression
lowering returning cleanly) returns with every name bound, after which a
second visit returns with that state unchanged and evaluates nothing. -/
theorem second_visit_skips_bound_names (env : Env) (isconst : Bool) (vs : ValueSpec)
    (s : State) :
    (∀ (nm : Ident) (i : Nat) (cur : Option ValueSpec) (w : Value),
      (s.objs nm.obj).data = Data.value w →
      visitName env isconst i nm cur s = ([], Outcome.ok cur s)) ∧
    ((∀ nm ∈ vs.names, ∃ w, (s.objs nm.obj).data = Data.value w) →
      VisitValueSpec env (some vs) isconst s = ([], Outcome.ok () s)) ∧
    (∀ vals : List Expr,
      LowersCleanly env (vs.names.map Ident.obj) →
      (vs.names.map Ident.obj).Nodup →
      (∀ nm ∈ vs.names, ∀ w, (s.objs nm.obj).data ≠ Data.value w) →
      (∀ nm ∈ vs.names, nm.name ≠ "_") →
      vals.length = vs.names.length →
      (vs.values = vals.map some ∨
        (isconst = true ∧ ∃ nm tl n, vs.names = nm :: tl ∧ (s.objs nm.obj).data = Data.int n)) →
      (isconst = true → ∀ nm ∈ vs.names, ∀ n, (s.objs nm.obj).data = Data.int n →
        ∃ d, (s.objs nm.obj).decl = some d ∧ d.values = vals.map some) →
      ∃ s1, VisitValueSpec env (some vs) isconst s = (vals, Outcome.ok () s1) ∧
        (∀ nm ∈ vs.names, ∃ w, (s1.objs nm.obj).data = Data.value w) ∧
        VisitValueSpec env (some vs) isconst s1 = ([], Outcome.ok () s1)) := by
  have hall : ∀ s0 : State, (∀ nm ∈ vs.names, ∃ w, (s0.objs nm.obj).data = Data.value w) →
      VisitValueSpec env (some vs) isconst s0 = ([], Outcome.ok () s0) := by
    intro s0 h
    simp [VisitValueSpec, visitNames_all_bound env isconst s0 vs.names 0 (some vs) h]
  refine ⟨fun nm i cur w hw => visitName_bound env isconst i nm cur s w hw, hall s, ?_⟩
  intro vals hc hnd hunb hnb hlen hvals hdecl
  obtain ⟨s1, hrun, _, _, hb⟩ := VisitValueSpec_run env isconst vs s vals hc hnd hunb hvals hdecl
  have hbound : ∀ nm ∈ vs.names, ∃ w, (s1.objs nm.obj).data = Data.value w := by
    intro nm hnm
    refine hb nm ?_ (hnb nm hnm)
    rw [hlen, List.take_length]
    exact hnm
  refine ⟨s1, ?_, hbound, hall s1 hbound⟩
  rw [hrun, ← hlen]
  simp

theorem second_visit_skips_bound_names_witness :
    ∃ s1, VisitValueSpec pureEnv (some xGroup) false emptyState
        = ([{ id := 3 }], Outcome.ok () s1) ∧
      (∀ nm ∈ xGroup.names, ∃ w, (s1.objs nm.obj).data = Data.value w) ∧
      VisitValueSpec pureEnv (some xGroup) false s1 = ([], Outcome.ok () s1) :=
  (second_visit_skips_bound_names pureEnv false xGroup emptyState).2.2 [{ id := 3 }]
    (pureEnv_lowersCleanly _) (by decide) (by intro nm _ w h; cases h)
    (by intro nm h; simp [xGroup] at h; subst h; decide) rfl (Or.inl rfl)
    (by intro h; cases h)

/-- C1 (the code departs from the claim): `constprim` is false for every
value, because no value is both an integer and a floating-point constant,
so no constant is ever folded. For `const (a = iota; b; c)`, none exported,
`VisitGenDecl` returns with three globals `a`, `b`, `c` of internal linkage
added to the module, initialized to 0, 1 and 2, and binds the three names
to the handles of those globals, not to the scalars. -/
theorem unexported_iota_constants_become_globals :
    (∀ v : Value, constprim v = false) ∧
    ∃ s1, VisitGenDecl iotaEnv iotaDecl iotaState
        = ([iotaExpr, iotaExpr, iotaExpr], Outcome.ok () s1) ∧
      s1.module.globals.map (fun g => g.name) = ["a", "b", "c"] ∧
      s1.module.globals.map (fun g => g.initializer) =
        [Value.constInt (LType.int 32) 0, Value.constInt (LType.int 32) 1,
         Value.constInt (LType.int 32) 2] ∧
      s1.module.globals.map (fun g => g.linkage) =
        [Linkage.InternalLinkage, Linkage.InternalLinkage, Linkage.InternalLinkage] ∧
      (s1.objs 0).data = Data.value (Value.global 0 (LType.int 32)) ∧
      (s1.objs 1).data = Data.value (Value.global 1 (LType.int 32)) ∧
      (s1.objs 2).data = Data.value (Value.global 2 (LType.int 32)) :=
  ⟨constprim_eq_false, _, rfl, rfl, rfl, rfl, rfl, rfl, rfl⟩

/-- C9 (as stated, refuted): when the lowering of the body panics, the pop
of line 67 is skipped. For `func f() { b0 }` with a body lowering that
panics at once, `VisitFuncDecl` ends in a panic whose state still has the
function on the nesting stack. -/
theorem nesting_stack_keeps_function_when_body_panics :
    ¬ (∀ (env : Env) (f : FuncDecl) (s : State),
      match VisitFuncDecl env f s with
      | Outcome.ok _ s1 => s1.functions = s.functions
      | Outcome.panic s1 => s1.functions = s.functions
      | Outcome.fault => True) := by
  intro h
  have h2 : [Value.function 0 (LType.function LType.void [])] = ([] : List Value) :=
    h panicEnv fDecl emptyState
  cases h2

/-- C9 (amended): when `VisitFuncType` leaves the nesting stack alone and a
body lowering that returns leaves it as it found it, the stack after
`VisitFuncDecl` equals the stack before the call when the call returns and
when it panics outside the lowering of the body (`obj.Data` holds no IR
value, `VisitFuncType` panics, the name is `init`); a panic inside the
lowering of the body, entered with the function pushed, ends the call with
the stack as the lowering left it, the pop not done. -/
theorem nesting_stack_balanced_unless_body_panics (env : Env) (f : FuncDecl) (s : State)
    (hty : ∀ t s0, match env.VisitFuncType t s0 with
      | Outcome.ok _ s1 => s1.functions = s0.functions
      | Outcome.panic s1 => s1.functions = s0.functions
      | Outcome.fault => True)
    (hbody : ∀ b s0 s1, env.VisitBlockStmt b s0 = Outcome.ok () s1 →
      s1.functions = s0.functions) :
    match VisitFuncDecl env f s with
    | Outcome.ok _ s1 => s1.functions = s.functions
    | Outcome.panic s1 => s1.functions = s.functions ∨
        ∃ b s4 fn, f.body = some b ∧ s4.functions = s.functions ++ [fn] ∧
          env.VisitBlockStmt b s4 = Outcome.panic s1
    | Outcome.fault => True := by
  have hl := lookupOrDeclare_functions env f s hty
  unfold VisitFuncDecl
  cases hr : lookupOrDeclare env f s with
  | fault => simp
  | panic s1 =>
    rw [hr] at hl
    simpa using Or.inl hl
  | ok fn s1 =>
    rw [hr] at hl
    simp only at hl ⊢
    cases hbb : AddBasicBlock s1 fn "entry" with
    | none => simp
    | some p =>
      obtain ⟨s2, entry⟩ := p
      have h2 : s2.functions = s.functions := by rw [AddBasicBlock_functions hbb, hl]
      simp only
      cases hlb : lowerBody env f.body
          { SetInsertPointAtEnd s2 entry with
            functions := (SetInsertPointAtEnd s2 entry).functions ++ [fn] } with
      | fault => simp
      | panic s5 =>
        simp only
        right
        cases hb : f.body with
        | none => rw [hb] at hlb; simp [lowerBody] at hlb
        | some b =>
          rw [hb] at hlb
          exact ⟨b, _, fn, rfl, by simp [SetInsertPointAtEnd, h2], hlb⟩
      | ok u s5 =>
        simp only
        have h5 : s5.functions = s.functions ++ [fn] := by
          cases hb : f.body with
          | none =>
            rw [hb] at hlb
            simp only [lowerBody, Outcome.ok.injEq] at hlb
            rw [← hlb.2]
            simp [SetInsertPointAtEnd, h2]
          | some b =>
            rw [hb] at hlb
            rw [hbody b _ s5 hlb]
            simp [SetInsertPointAtEnd, h2]
        have hf := finishFuncDecl_functions f fn s5
        rw [h5, List.dropLast_concat] at hf
        cases hfin : finishFuncDecl f fn s5 with
        | fault => simp
        | panic s7 => rw [hfin] at hf; simpa using Or.inl hf
        | ok v s7 => rw [hfin] at hf; simpa using hf

theorem nesting_stack_balanced_unless_body_panics_witness :
    match VisitFuncDecl pureEnv initDecl emptyState with
    | Outcome.ok _ s1 => s1.functions = emptyState.functions
    | Outcome.panic s1 => s1.functions = emptyState.functions ∨
        ∃ b s4 fn, initDecl.body = some b ∧ s4.functions = emptyState.functions ++ [fn] ∧
          pureEnv.VisitBlockStmt b s4 = Outcome.panic s1
    | Outcome.fault => True :=
  nesting_stack_balanced_unless_body_panics pureEnv initDecl emptyState
    (fun _ _ => rfl) (fun _ _ _ h => by cases h; rfl)

/-- C8: let `VisitFuncDecl` have obtained the function value `fn`, added the
entry block and lowered the body normally to state `s5`, in which the
function has a last block `lb` and the builder stands in block `bi` of the
function. Then the call ends (with the name bound, or with the `init`
panic) in a state `s7` such that: if the return type is void and the last
instruction of `lb` is absent or not a return, exactly one `ret void` is
appended, at the end of block `bi` of the function, and every other block
is as the body lowering left it; if the return type is void and the last
instruction is a return, or if the return type is not void, the module is
as the body lowering left it. -/
theorem void_function_gets_missing_return (env : Env) (f : FuncDecl) (s s1 s2 s5 : State)
    (fn : Value) (entry : Nat × Nat) (fty rt ft0 : LType) (lb : BasicBlock) (fi bi : Nat)
    (is : List Instr)
    (hfn : lookupOrDeclare env f s = Outcome.ok fn s1)
    (hbb : AddBasicBlock s1 fn "entry" = some (s2, entry))
    (hbody : lowerBody env f.body
      { SetInsertPointAtEnd s2 entry with
        functions := (SetInsertPointAtEnd s2 entry).functions ++ [fn] } = Outcome.ok () s5)
    (hstack : s5.functions ≠ [])
    (hty : fn.Type.bind LType.ReturnType = some fty) (hrt : fty.ReturnType = some rt)
    (hlast : LastBasicBlock s5 fn = some lb)
    (_hin : fn = Value.function fi ft0)
    (hbuilder : s5.builder = some (fi, bi))
    (hblock : blockInstrs s5 fi bi = some is) :
    ∃ s7, VisitFuncDecl env f s =
        (if f.name.name = "init" then Outcome.panic s7
          else Outcome.ok fn (s7.setData f.name.obj (Data.value fn))) ∧
      (rt.TypeKind = TypeKind.VoidTypeKind →
        (∀ i, LastInstruction lb = some i → i.Opcode ≠ Opcode.Ret) →
        blockInstrs s7 fi bi = some (is ++ [Instr.retVoid]) ∧
        ∀ fj bj, ¬ (fj = fi ∧ bj = bi) → blockInstrs s7 fj bj = blockInstrs s5 fj bj) ∧
      (rt.TypeKind = TypeKind.VoidTypeKind →
        (∃ i, LastInstruction lb = some i ∧ i.Opcode = Opcode.Ret) →
        s7.module = s5.module) ∧
      (rt.TypeKind ≠ TypeKind.VoidTypeKind → s7.module = s5.module) := by
  have hlast6 : LastBasicBlock { s5 with functions := s5.functions.dropLast } fn = some lb := hlast
  have hret : ∀ fj bj,
      blockInstrs (CreateRetVoid { s5 with functions := s5.functions.dropLast }) fj bj =
        if fj = fi ∧ bj = bi then (blockInstrs s5 fj bj).map (fun l => l ++ [Instr.retVoid])
        else blockInstrs s5 fj bj :=
    CreateRetVoid_blockInstrs { s5 with functions := s5.functions.dropLast } fi bi hbuilder
  have hstart : VisitFuncDecl env f s = finishFuncDecl f fn s5 := by
    simp [VisitFuncDecl, hfn, hbb, hbody]
  rw [hstart, finishFuncDecl_eq f fn s5 fty rt hstack hty hrt]
  by_cases hv : rt.TypeKind = TypeKind.VoidTypeKind
  · cases hli : LastInstruction lb with
    | none =>
      refine ⟨CreateRetVoid { s5 with functions := s5.functions.dropLast }, ?_, ?_, ?_, ?_⟩
      · simp [hv, completeTerminator, hlast6, hli]
      · intro _ _
        refine ⟨?_, fun fj bj hne => ?_⟩
        · rw [hret fi bi]; simp [hblock]
        · rw [hret fj bj]; simp [hne]
      · rintro _ ⟨i, hi, _⟩
        cases hi
      · intro hnv
        exact absurd hv hnv
    | some i =>
      by_cases hop : i.Opcode = Opcode.Ret
      · refine ⟨{ s5 with functions := s5.functions.dropLast }, ?_, ?_, ?_, ?_⟩
        · simp [hv, completeTerminator, hlast6, hli, hop]
        · intro _ hall
          exact absurd hop (hall i rfl)
        · intro _ _
          rfl
        · intro _
          rfl
      · refine ⟨CreateRetVoid { s5 with functions := s5.functions.dropLast }, ?_, ?_, ?_, ?_⟩
        · simp [hv, completeTerminator, hlast6, hli, hop]
        · intro _ _
          refine ⟨?_, fun fj bj hne => ?_⟩
          · rw [hret fi bi]; simp [hblock]
          · rw [hret fj bj]; simp [hne]
        · rintro _ ⟨j, hj, hjr⟩
          cases hj
          exact absurd hjr hop
        · intro hnv
          exact absurd hv hnv
  · refine ⟨{ s5 with functions := s5.functions.dropLast }, ?_, ?_, ?_, ?_⟩
    · simp [hv]
    · intro h
      exact absurd h hv
    · intro h
      exact absurd h hv
    · intro _
      rfl

theorem void_function_gets_missing_return_witness :
    ∃ s7, VisitFuncDecl pureEnv gDecl emptyState =
        (if gDecl.name.name = "init" then Outcome.panic s7
          else Outcome.ok (Value.function 0 (LType.function LType.void []))
            (s7.setData gDecl.name.obj
              (Data.value (Value.function 0 (LType.function LType.void []))))) ∧
      (LType.void.TypeKind = TypeKind.VoidTypeKind →
        (∀ i, LastInstruction { name := "entry", instrs := [] } = some i →
          i.Opcode ≠ Opcode.Ret) →
        blockInstrs s7 0 0 = some ([] ++ [Instr.retVoid]) ∧
        ∀ fj bj, ¬ (fj = 0 ∧ bj = 0) → blockInstrs s7 fj bj = blockInstrs gEntered fj bj) ∧
      (LType.void.TypeKind = TypeKind.VoidTypeKind →
        (∃ i, LastInstruction { name := "entry", instrs := [] } = some i ∧
          i.Opcode = Opcode.Ret) →
        s7.module = gEntered.module) ∧
      (LType.void.TypeKind ≠ TypeKind.VoidTypeKind → s7.module = gEntered.module) :=
  void_function_gets_missing_return pureEnv gDecl emptyState
    (SetFunctionCallConv (AddFunction pureEnv emptyState "g" (LType.function LType.void [])).1
      (Value.function 0 (LType.function LType.void [])) CallConv.FastCallConv)
    (modifyFunction
      (SetFunctionCallConv (AddFunction pureEnv emptyState "g" (LType.function LType.void [])).1
        (Value.function 0 (LType.function LType.void [])) CallConv.FastCallConv)
      (Value.function 0 (LType.function LType.void []))
      (fun g => { g with blocks := g.blocks ++ [{ name := "entry", instrs := [] }] }))
    gEntered (Value.function 0 (LType.function LType.void [])) (0, 0)
    (LType.function LType.void []) LType.void (LType.function LType.void [])
    { name := "entry", instrs := [] } 0 0 []
    rfl rfl rfl (by intro h; cases h) rfl rfl rfl rfl rfl rfl

/-- C7: for a function declaration not named `init`, with a body lowering
that returns cleanly: if the identifier is already bound to a function value
`v` of the module, `VisitFuncDecl` adds no function, returns `v` and leaves
the identifier bound to `v`; if the identifier is unbound (and
`VisitFuncType` yields a function type without adding a function),
`VisitFuncDecl` adds exactly one function, returns its handle and binds the
identifier to it. -/
theorem function_value_reused_or_created_once (env : Env) (f : FuncDecl) (s : State)
    (hname : f.name.name ≠ "init") (hbody : BodyLowersCleanly env) :
    (∀ (id : Nat) (ret : LType) (params : List LType),
      (s.objs f.name.obj).data = Data.value (Value.function id (LType.function ret params)) →
      id < s.module.funcs.length →
      ∃ s1, VisitFuncDecl env f s =
          Outcome.ok (Value.function id (LType.function ret params)) s1 ∧
        (s1.objs f.name.obj).data =
          Data.value (Value.function id (LType.function ret params)) ∧
        s1.module.funcs.length = s.module.funcs.length) ∧
    (∀ (ret : LType) (params : List LType) (s0 : State),
      (s.objs f.name.obj).data = Data.nil →
      env.VisitFuncType f.type s = Outcome.ok (LType.function ret params) s0 →
      s0.module.funcs.length = s.module.funcs.length →
      ∃ s1, VisitFuncDecl env f s =
          Outcome.ok (Value.function s.module.funcs.length (LType.function ret params)) s1 ∧
        (s1.objs f.name.obj).data =
          Data.value (Value.function s.module.funcs.length (LType.function ret params)) ∧
        s1.module.funcs.length = s.module.funcs.length + 1) := by
  constructor
  · intro id ret params hb hvalid
    have hfn : lookupOrDeclare env f s =
        Outcome.ok (Value.function id (LType.function ret params)) s := by
      simp [lookupOrDeclare, hb]
    obtain ⟨s7, h1, h2⟩ := VisitFuncDecl_of_function env f s s id ret params hname hbody hfn hvalid
    exact ⟨_, h1, by simp [State.setData], by simpa [State.setData] using h2⟩
  · intro ret params s0 hnil hft hlen
    obtain ⟨s2, hfn, hlen2⟩ := lookupOrDeclare_nil env f s s0 (LType.function ret params) hnil hft
    rw [hlen] at hfn
    obtain ⟨s7, h1, h2⟩ := VisitFuncDecl_of_function env f s s2 s.module.funcs.length ret params
      hname hbody hfn (by omega)
    exact ⟨_, h1, by simp [State.setData], by simp [State.setData, h2, hlen2, hlen]⟩

theorem function_value_reused_or_created_once_witness :
    ∃ s1, VisitFuncDecl pureEnv fDecl emptyState =
        Outcome.ok (Value.function emptyState.module.funcs.length
          (LType.function LType.void [])) s1 ∧
      (s1.objs fDecl.name.obj).data =
        Data.value (Value.function emptyState.module.funcs.length
          (LType.function LType.void [])) ∧
      s1.module.funcs.length = emptyState.module.funcs.length + 1 :=
  (function_value_reused_or_created_once pureEnv fDecl emptyState (by decide)
    pureEnv_bodyLowersCleanly).2 LType.void [] emptyState rfl rfl rfl

end Llgo
